import Mathlib

/-!
# CV builder — shallow embedding of the résumé document model

A shallow embedding of the core of `src/app/page.tsx` of the
`cv-builder-site` repository: the form (Document) record, the entry-list
operations, the field validators, the step gate, the keyword-gap analyzer,
the section-order operations and the export/import (serialization)
contract.  JavaScript arrays become `List`, objects-as-maps become
association lists, `string` becomes `String`, and the dynamic JSON value
produced by `JSON.stringify`/`JSON.parse` is modelled by the `Json`
inductive below.  Only ASCII text is modelled: the source's regexes
(`[a-zA-Z]`, `[0-9]`, `\s`) and `toLowerCase`/`trim` are transcribed at
ASCII precision.
-/

namespace CvBuilder

/-- JS `\s` / the whitespace that `String.prototype.trim` strips, at ASCII
precision. -/
def isWs (c : Char) : Bool := c = ' ' || c = '\t' || c = '\n' || c = '\r'

/-- `value.trim()`: strip leading and trailing whitespace from a character
list. -/
def trimChars (l : List Char) : List Char :=
  ((l.dropWhile isWs).reverse.dropWhile isWs).reverse

/-- `value.trim()` on strings. -/
def jsTrim (s : String) : String := String.mk (trimChars s.data)

/-- `value.toLowerCase()` at ASCII precision: `Char.toLower` lowercases
exactly `A`-`Z`. -/
def jsToLower (s : String) : String := String.mk (s.data.map Char.toLower)

/-! ## Data model (the `initialForm` record, page.tsx lines 14-35) -/

structure EducationEntry where
  institution : String
  degree : String
  year : String
deriving DecidableEq

structure ExperienceEntry where
  role : String
  company : String
  period : String
  description : String
deriving DecidableEq

structure LanguageEntry where
  language : String
  level : String
deriving DecidableEq

/-- `url?: string` in the source; every in-program constructor
(`addProject`) initializes it to `""` and readers use `proj.url || ''`, so
it is modelled as a plain `String`. -/
structure ProjectEntry where
  title : String
  description : String
  url : String
deriving DecidableEq

structure CertificationEntry where
  name : String
  issuer : String
  year : String
deriving DecidableEq

/-- The Document aggregate: the `form` state record, fields in the source's
declaration order. -/
structure Form where
  firstName : String
  lastName : String
  title : String
  email : String
  countryCode : String
  phone : String
  summary : String
  educationList : List EducationEntry
  experienceList : List ExperienceEntry
  skillsList : List String
  languagesList : List LanguageEntry
  hobbiesList : List String
  projectsList : List ProjectEntry
  certificationsList : List CertificationEntry
  linkedin : String
  website : String
  accentColor : String
  template : String
  fontFamily : String
  profileImage : Option String
deriving DecidableEq

/-- `initialForm` (page.tsx lines 14-35). -/
def initialForm : Form where
  firstName := ""
  lastName := ""
  title := ""
  email := ""
  countryCode := "+31"
  phone := ""
  summary := ""
  educationList := []
  experienceList := []
  skillsList := []
  languagesList := []
  hobbiesList := []
  projectsList := []
  certificationsList := []
  linkedin := ""
  website := ""
  accentColor := "#0070f3"
  template := "professional"
  fontFamily := "sans"
  profileImage := none

/-- The seven section identifiers, in the default order.  The source
repeats this literal in the `sectionOrder` initializer (lines 387-395) and
in `resetAll` (lines 644-652). -/
def sectionIds : List String :=
  ["education", "experience", "projects", "certifications", "skills",
   "languages", "hobbies"]

/-- The default `sectionVisibility` object (lines 401-409): every section
visible. -/
def initialVisibility : List (String × Bool) :=
  [("education", true), ("experience", true), ("projects", true),
   ("certifications", true), ("skills", true), ("languages", true),
   ("hobbies", true)]

/-- The authoring state the claims range over: the form, the validation
error map, the section order, the section visibility map and the
per-experience suggestion-toggle array (`expSugToggles`, line 830). -/
structure AppState where
  form : Form
  errors : List (String × String)
  sectionOrder : List String
  sectionVisibility : List (String × Bool)
  expSugToggles : List Bool
deriving DecidableEq

/-- The session-start state: all-empty defaults. -/
def initialState : AppState where
  form := initialForm
  errors := []
  sectionOrder := sectionIds
  sectionVisibility := initialVisibility
  expSugToggles := []

/-! ## Validators (`validateField`, page.tsx lines 58-90) -/

/-- The character class of the name regex `[a-zA-Z\s'-]`
(`Char.isAlpha` is exactly ASCII `a-zA-Z`). -/
def isNameChar (c : Char) : Bool := c.isAlpha || isWs c || c = '\x27' || c = '-'

/-- `\w` of the email regex: ASCII alphanumerics and underscore. -/
def isWordChar (c : Char) : Bool := c.isAlphanum || c = '_'

/-- The specials of the email regex's local part
`[\w.!#$%&'*+/=?^_`{|}~-]` beyond `\w`. -/
def emailSpecials : String := ".!#$%&\x27*+/=?^_\x60\x7b|\x7d~-"

def isLocalChar (c : Char) : Bool := isWordChar c || emailSpecials.contains c

/-- `[\w-]` of the email regex's domain parts. -/
def isDomChar (c : Char) : Bool := isWordChar c || c = '-'

/-- The email regex `^[local]+@[\w-]+(?:\.[\w-]+)+$`: neither character
class contains `@`, and the domain classes do not contain `.`, so a match
is exactly one `@`, a non-empty all-local-chars part before it, and after
it two or more non-empty all-domain-chars parts joined by dots. -/
def emailShape (value : String) : Bool :=
  match value.split (· = '@') with
  | [localPart, domain] =>
    localPart ≠ "" && localPart.data.all isLocalChar &&
    (let parts := domain.split (· = '.')
     parts.length ≥ 2 && parts.all (fun p => p ≠ "" && p.data.all isDomChar))
  | _ => false

/-- The phone regex's character class `[0-9\s-]`. -/
def isPhoneChar (c : Char) : Bool := c.isDigit || isWs c || c = '-'

/-- `.+\..+`: at least one character, a dot, at least one character. -/
def hasInnerDot (l : List Char) : Bool :=
  (List.range l.length).any fun i =>
    decide (1 ≤ i) && decide (i + 1 < l.length) && (l.get? i == some '.')

/-- The URL regex `^https?:\/\/.+\..+`: an `http://` or `https://` scheme
followed by text containing a dot with at least one character on each
side.  (The regex is unanchored at the end, so `.+\..+` only needs to
match a prefix of the remainder; since `.` matches anything, that is the
same as matching the whole remainder.) -/
def urlShape (value : String) : Bool :=
  if value.startsWith "https://" then hasInnerDot (value.data.drop 8)
  else if value.startsWith "http://" then hasInnerDot (value.data.drop 7)
  else false

/-- `validateField` (page.tsx lines 58-90). -/
def validateField (name value : String) : String :=
  if name = "firstName" ∨ name = "lastName" then
    if jsTrim value = "" then "This field is required"
    else if value.data.any (fun c => !(isNameChar c)) = true then "Only letters are allowed"
    else ""
  else if name = "email" then
    if jsTrim value = "" then "Email is required"
    else if emailShape value = false then "Please enter a valid email address"
    else ""
  else if name = "phone" then
    if jsTrim value = "" then "Phone number is required"
    else if value.data.any (fun c => !(isPhoneChar c)) = true then
      "Only digits, spaces and hyphens are allowed"
    else ""
  else if name = "linkedin" ∨ name = "website" then
    if jsTrim value = "" then ""
    else if urlShape value = true then ""
    else "Please enter a valid URL (starting with http(s)://)"
  else ""

/-! ## Entry-list engine: the JS `splice`-based move helpers -/

/-- `list.splice(i, 1)` (the removal): drops the element at `i`; for `i`
past the end it removes nothing, as in JS. -/
def spliceRemove (l : List α) (i : Nat) : List α := l.take i ++ l.drop (i + 1)

/-- `list.splice(i, 0, x)` for a non-negative index: inserts `x` at `i`,
clamped to the end when `i` is past it, as in JS. -/
def spliceInsert (l : List α) (i : Nat) (x : α) : List α :=
  l.take i ++ x :: l.drop i

/-- `arr.splice(start, 0, x)` for a possibly negative `start`: JS resolves
a negative `start` to `max(length + start, 0)` and clamps a positive one
to `length`. -/
def jsSpliceInsert (l : List α) (start : Int) (x : α) : List α :=
  let s : Nat := if start < 0 then (l.length + start).toNat
                 else min start.toNat l.length
  l.take s ++ x :: l.drop s

/-- The shared body of `moveEducationEntry`, `moveExperienceEntry`,
`moveProjectEntry`, `moveCertificationEntry` and `moveSection`
(page.tsx lines 213-259 and 417-426):

    const newIndex = index + direction;
    if (newIndex < 0 || newIndex >= list.length) return prev;
    const [item] = list.splice(index, 1);
    list.splice(newIndex, 0, item);

The `none` branch of the match is the case `index ≥ list.length` (with the
guard passed): there the source's first `splice` removes nothing and the
second would insert an `undefined` hole; the program only calls these
helpers with indices produced by mapping over the live list, so that case
never arises, and the typed model keeps the list unchanged there. -/
def moveEntry (l : List α) (index : Nat) (direction : Int) : List α :=
  let newIndex : Int := (index : Int) + direction
  if newIndex < 0 ∨ (l.length : Int) ≤ newIndex then l
  else
    match l[index]? with
    | none => l
    | some item => spliceInsert (spliceRemove l index) newIndex.toNat item

/-- The `setExpSugToggles` update inside `moveExperienceEntry`
(page.tsx lines 233-238):

    const arr = [...prev];
    const [flag] = arr.splice(index, 1);
    arr.splice(index + direction, 0, flag);
    return arr;

Unlike the form-list update it has no bounds guard, and the insertion
index `index + direction` can be negative, which JS `splice` resolves
relative to the end of the array.  As in `moveEntry`, the `none` branch
(`index` past the end, where the source would insert an `undefined` hole)
is unreachable from the program's call sites and keeps the array
unchanged. -/
def moveToggles (arr : List Bool) (index : Nat) (direction : Int) : List Bool :=
  match arr[index]? with
  | none => arr
  | some flag => jsSpliceInsert (spliceRemove arr index) ((index : Int) + direction) flag

/-! ## State-level operations -/

/-- `addEducation` (lines 142-150). -/
def addEducationOp (s : AppState) : AppState :=
  { s with form := { s.form with
      educationList := s.form.educationList ++ [⟨"", "", ""⟩] } }

/-- `addExperience` (lines 176-186): appends a default entry to the
experience list and pushes a `false` flag onto the suggestion toggles. -/
def addExperienceOp (s : AppState) : AppState :=
  { s with
    form := { s.form with
      experienceList := s.form.experienceList ++ [⟨"", "", "", ""⟩] }
    expSugToggles := s.expSugToggles ++ [false] }

/-- `removeExperience` (lines 199-206): filters index `i` out of both the
experience list and the toggle array. -/
def removeExperienceOp (s : AppState) (i : Nat) : AppState :=
  { s with
    form := { s.form with
      experienceList :=
        (s.form.experienceList.enum.filter (fun p => p.1 ≠ i)).map (·.2) }
    expSugToggles := (s.expSugToggles.enum.filter (fun p => p.1 ≠ i)).map (·.2) }

/-- `moveEducationEntry` (lines 213-222). -/
def moveEducationEntryOp (s : AppState) (i : Nat) (d : Int) : AppState :=
  { s with form := { s.form with
      educationList := moveEntry s.form.educationList i d } }

/-- `moveExperienceEntry` (lines 223-239): the guarded move of the
experience list together with the unguarded toggle-array reorder. -/
def moveExperienceEntryOp (s : AppState) (i : Nat) (d : Int) : AppState :=
  { s with
    form := { s.form with
      experienceList := moveEntry s.form.experienceList i d }
    expSugToggles := moveToggles s.expSugToggles i d }

/-- `moveProjectEntry` (lines 240-249). -/
def moveProjectEntryOp (s : AppState) (i : Nat) (d : Int) : AppState :=
  { s with form := { s.form with
      projectsList := moveEntry s.form.projectsList i d } }

/-- `moveCertificationEntry` (lines 250-259). -/
def moveCertificationEntryOp (s : AppState) (i : Nat) (d : Int) : AppState :=
  { s with form := { s.form with
      certificationsList := moveEntry s.form.certificationsList i d } }

/-- `moveSection` (lines 417-426): the same guarded splice-splice move on
the section-order array. -/
def moveSectionOp (s : AppState) (i : Nat) (d : Int) : AppState :=
  { s with sectionOrder := moveEntry s.sectionOrder i d }

/-- `addSkill` (lines 267-274).  NOTE, faithfully to the source: the
duplicate test compares the *untrimmed* input against the stored entries,
while the value appended is the *trimmed* input. -/
def addSkill (f : Form) (skill : String) : Form :=
  let dup := f.skillsList.any (fun s => jsToLower s == jsToLower skill)
  if dup || jsTrim skill == "" then f
  else { f with skillsList := f.skillsList ++ [jsTrim skill] }

/-- `addHobby` (lines 287-293): same shape as `addSkill`. -/
def addHobby (f : Form) (hobby : String) : Form :=
  let dup := f.hobbiesList.any (fun h => jsToLower h == jsToLower hobby)
  if dup || jsTrim hobby == "" then f
  else { f with hobbiesList := f.hobbiesList ++ [jsTrim hobby] }

/-- `resetAll` (lines 642-667): every component of the modelled state goes
back to its default. -/
def resetAllOp (_s : AppState) : AppState := initialState

/-! ## Persistence: export / import (`exportJSON` lines 673-684,
`importJSON` lines 691-706, autosave/restore lines 797-824) -/

/-- The parsed shape of an import payload: each of the three top-level
keys may be absent.  `none` models a key the parsed object does not carry
(the source's `if (parsed.form)`, `if (parsed.sectionOrder)`,
`if (parsed.sectionVisibility)` presence tests). -/
structure Payload where
  form : Option Form
  sectionOrder : Option (List String)
  sectionVisibility : Option (List (String × Bool))
deriving DecidableEq

/-- `exportJSON` / the autosave write: serialize
`{ form, sectionOrder, sectionVisibility }` — all three keys present. -/
def exportJSON (s : AppState) : Payload :=
  ⟨some s.form, some s.sectionOrder, some s.sectionVisibility⟩

/-- The three guarded assignments of `importJSON` (lines 698-700), in the
source's order: each key present in the payload overwrites the matching
state component, each absent key leaves it untouched. -/
def applyImport (s : AppState) (p : Payload) : AppState :=
  let s1 := match p.form with
    | some f => { s with form := f }
    | none => s
  let s2 := match p.sectionOrder with
    | some o => { s1 with sectionOrder := o }
    | none => s1
  match p.sectionVisibility with
    | some v => { s2 with sectionVisibility := v }
    | none => s2

/-- `importJSON` / the session-start restore: `none` is an input that did
not parse as JSON — the `catch` swallows the failure and the state is left
as it was. -/
def importJSONOp (s : AppState) (parsed : Option Payload) : AppState :=
  match parsed with
  | none => s
  | some p => applyImport s p

/-! ## The serialized JSON shape

`JSON.stringify({ form, sectionOrder, sectionVisibility })` writes a
field-named JSON value; the `Json` inductive and the encoders below
transcribe that shape (object keys in the source's declaration order).
They witness that serialization is lossless: the encoding is injective. -/

inductive Json where
  | null : Json
  | bool : Bool → Json
  | str : String → Json
  | arr : List Json → Json
  | obj : List (String × Json) → Json

def encodeEducation (e : EducationEntry) : Json :=
  .obj [("institution", .str e.institution), ("degree", .str e.degree),
        ("year", .str e.year)]

def encodeExperience (e : ExperienceEntry) : Json :=
  .obj [("role", .str e.role), ("company", .str e.company),
        ("period", .str e.period), ("description", .str e.description)]

def encodeLanguage (e : LanguageEntry) : Json :=
  .obj [("language", .str e.language), ("level", .str e.level)]

def encodeProject (e : ProjectEntry) : Json :=
  .obj [("title", .str e.title), ("description", .str e.description),
        ("url", .str e.url)]

def encodeCertification (e : CertificationEntry) : Json :=
  .obj [("name", .str e.name), ("issuer", .str e.issuer),
        ("year", .str e.year)]

def encodeForm (f : Form) : Json :=
  .obj [("firstName", .str f.firstName), ("lastName", .str f.lastName),
        ("title", .str f.title), ("email", .str f.email),
        ("countryCode", .str f.countryCode), ("phone", .str f.phone),
        ("summary", .str f.summary),
        ("educationList", .arr (f.educationList.map encodeEducation)),
        ("experienceList", .arr (f.experienceList.map encodeExperience)),
        ("skillsList", .arr (f.skillsList.map Json.str)),
        ("languagesList", .arr (f.languagesList.map encodeLanguage)),
        ("hobbiesList", .arr (f.hobbiesList.map Json.str)),
        ("projectsList", .arr (f.projectsList.map encodeProject)),
        ("certificationsList", .arr (f.certificationsList.map encodeCertification)),
        ("linkedin", .str f.linkedin), ("website", .str f.website),
        ("accentColor", .str f.accentColor), ("template", .str f.template),
        ("fontFamily", .str f.fontFamily),
        ("profileImage", match f.profileImage with
          | none => Json.null
          | some img => Json.str img)]

/-- The full serialized snapshot
`{ form: ..., sectionOrder: [...], sectionVisibility: {...} }`. -/
def encodeSaved (f : Form) (order : List String)
    (vis : List (String × Bool)) : Json :=
  .obj [("form", encodeForm f),
        ("sectionOrder", .arr (order.map Json.str)),
        ("sectionVisibility", .obj (vis.map (fun kv => (kv.1, Json.bool kv.2))))]

/-! ## Step gate (`isNextDisabled`, page.tsx lines 891-920) -/

/-- `isNextDisabled`: whether the forward transition is blocked at `step`.
JS `!form.field` on a string is the empty-string test. -/
def isNextDisabled (step : Nat) (f : Form) (errors : List (String × String)) : Bool :=
  let hasErrors := errors.any fun kv =>
    kv.2 != "" &&
      (if step = 0 then ["firstName", "lastName", "email", "phone"].contains kv.1
       else true)
  match step with
  | 0 => f.firstName == "" || f.lastName == "" || f.title == "" ||
         f.email == "" || f.phone == "" || hasErrors
  | 1 => f.summary == ""
  | 2 => f.educationList.length == 0
  | 3 => f.experienceList.length == 0
  | 4 => f.skillsList.length == 0
  | _ => false

/-! ## Keyword gap analyzer (the `missingKeywords` effect, lines 853-888) -/

/-- The stop-word set (lines 853-855). -/
def stopWordsList : List String :=
  ["the", "and", "for", "with", "from", "that", "this", "these", "those",
   "have", "has", "had", "will", "would", "shall", "should", "can", "could",
   "a", "an", "in", "on", "to", "of", "it", "is", "are", "was", "were",
   "be", "as", "at", "by", "or", "we", "you", "your", "our", "us", "they",
   "them", "their", "he", "she", "his", "her", "its", "but", "if", "about",
   "than", "into", "out", "up", "down", "who", "what", "when", "where",
   "why", "how"]

/-- `[a-z0-9]` after lowercasing. -/
def isKept (c : Char) : Bool :=
  ('a' ≤ c && c ≤ 'z') || ('0' ≤ c && c ≤ '9')

/-- `.replace(/[^a-z0-9\s]/g, ' ')` on one character. -/
def normChar (c : Char) : Char := if isKept c || isWs c then c else ' '

/-- Split on whitespace.  One (possibly empty) piece is produced per
boundary; the source's `split(/\s+/)` collapses separator runs but can
still yield a leading empty piece — either way every extra piece is empty
and the `length > 3` filter below removes it, so the surviving tokens are
the same. -/
def splitWsAux (acc : List Char) : List Char → List (List Char)
  | [] => [acc.reverse]
  | c :: cs =>
    if isWs c then acc.reverse :: splitWsAux [] cs
    else splitWsAux (c :: acc) cs

/-- The tokens of the lowercased, punctuation-normalized job description:
`jobDescription.toLowerCase().replace(/[^a-z0-9\s]/g, ' ').split(/\s+/)`. -/
def jdTokens (jd : String) : List String :=
  (splitWsAux [] (jd.data.map (fun c => normChar c.toLower))).map
    (fun l => String.mk l)

/-- `new Set(jdWords)` iterated with `forEach`: deduplicate keeping the
first occurrence, in order. -/
def dedupFirst (seen : List String) : List String → List String
  | [] => []
  | w :: ws =>
    if w ∈ seen then dedupFirst seen ws
    else w :: dedupFirst (w :: seen) ws

/-- The assembled resume text (lines 873-881): summary, the skills joined
by spaces, per experience entry `role company description`, per education
entry `degree institution`, the hobbies joined by spaces — all joined by
spaces and lowercased. -/
def resumeText (f : Form) : String :=
  jsToLower (String.intercalate " "
    ([f.summary, String.intercalate " " f.skillsList]
      ++ f.experienceList.map (fun e => e.role ++ " " ++ e.company ++ " " ++ e.description)
      ++ f.educationList.map (fun e => e.degree ++ " " ++ e.institution)
      ++ [String.intercalate " " f.hobbiesList]))

/-- `needle` begins `hay`. -/
def leadsWith : List Char → List Char → Bool
  | [], _ => true
  | _ :: _, [] => false
  | a :: as, b :: bs => a = b && leadsWith as bs

def hasSub (needle : List Char) : List Char → Bool
  | [] => leadsWith needle []
  | c :: cs => leadsWith needle (c :: cs) || hasSub needle cs

/-- JS `hay.includes(needle)`: substring containment. -/
def containsStr (hay needle : String) : Bool := hasSub needle.data hay.data

/-- The `missingKeywords` computation (lines 860-888): the guard
`!jobDescription.trim()` yields the empty result; otherwise the tokens of
the normalized job description are filtered to length `> 3` and
non-stop-words, deduplicated in first-occurrence order, and those not
contained in the resume text are reported. -/
def missingKeywords (jd : String) (f : Form) : List String :=
  if jsTrim jd = "" then []
  else
    let jdWords := (jdTokens jd).filter fun w =>
      decide (3 < w.length) && !(stopWordsList.contains w)
    let jdSet := dedupFirst [] jdWords
    jdSet.filter fun w => !(containsStr (resumeText f) w)

/-! ## Reachability (claim C5's operation set) -/

/-- The states reachable through initialization, `moveSection`,
`resetAll`, `importJSON` and the session-start restore (whose code is the
same guarded triple of assignments as `importJSON`), with arbitrary import
payloads — the import applies whatever `sectionOrder` array the parsed
file carries, unvalidated. -/
inductive Reachable : AppState → Prop where
  | init : Reachable initialState
  | move (s : AppState) (hs : Reachable s) (i : Nat) (d : Int) :
      Reachable (moveSectionOp s i d)
  | reset (s : AppState) (hs : Reachable s) : Reachable (resetAllOp s)
  | importJ (s : AppState) (hs : Reachable s) (p : Option Payload) :
      Reachable (importJSONOp s p)
  | restore (s : AppState) (hs : Reachable s) (p : Option Payload) :
      Reachable (importJSONOp s p)

/-- A payload whose `sectionOrder`, when present, is a permutation of the
seven section identifiers (the shape §6 of the spec promises for
exported/persisted snapshots). -/
def payloadOrderOk : Option Payload → Prop
  | none => True
  | some q => ∀ ord, q.sectionOrder = some ord → ord.Perm sectionIds

/-- Reachability when every imported/restored payload is well-formed in
the sense of `payloadOrderOk`. -/
inductive ReachableWF : AppState → Prop where
  | init : ReachableWF initialState
  | move (s : AppState) (hs : ReachableWF s) (i : Nat) (d : Int) :
      ReachableWF (moveSectionOp s i d)
  | reset (s : AppState) (hs : ReachableWF s) : ReachableWF (resetAllOp s)
  | importJ (s : AppState) (hs : ReachableWF s) (p : Option Payload)
      (hp : payloadOrderOk p) : ReachableWF (importJSONOp s p)
  | restore (s : AppState) (hs : ReachableWF s) (p : Option Payload)
      (hp : payloadOrderOk p) : ReachableWF (importJSONOp s p)

/-! ## Concrete states used when settling the claims -/

/-- A state with three experience entries and their suggestion toggles,
exactly as `addExperience` would have built them (toggle flags then edited
by the user via the per-entry toggle button). -/
def threeExpState : AppState :=
  { initialState with
    form := { initialForm with
      experienceList :=
        [⟨"Engineer", "Acme", "2020", "built things"⟩,
         ⟨"Manager", "Globex", "2021", "managed things"⟩,
         ⟨"Analyst", "Initech", "2022", "analysed things"⟩] }
    expSugToggles := [true, false, false] }

/-- The state after importing a syntactically valid file whose
`sectionOrder` is the one-element array `["education"]`: `importJSON`
applies it without any shape validation. -/
def badOrderImport : AppState :=
  importJSONOp initialState (some ⟨none, some ["education"], none⟩)

/-! # Theorems -/

/-! ## Generic facts about the splice-based move -/

theorem moveEntry_up_from_zero (l : List α) : moveEntry l 0 (-1) = l := by
  unfold moveEntry
  rw [if_pos]
  left
  norm_num

theorem moveEntry_down_from_last (l : List α) :
    moveEntry l (l.length - 1) 1 = l := by
  unfold moveEntry
  rw [if_pos]
  right
  omega

theorem spliceInsert_perm (m : List α) (j : Nat) (x : α) :
    (spliceInsert m j x).Perm (x :: m) := by
  have h1 : (m.take j ++ x :: m.drop j).Perm (x :: (m.take j ++ m.drop j)) :=
    List.perm_middle
  rw [List.take_append_drop] at h1
  exact h1

theorem moveEntry_perm (l : List α) (i : Nat) (d : Int) :
    (moveEntry l i d).Perm l := by
  unfold moveEntry
  by_cases hc : ((i : Int) + d < 0 ∨ (l.length : Int) ≤ (i : Int) + d)
  · rw [if_pos hc]
  · rw [if_neg hc]
    cases hgi : l[i]? with
    | none => exact List.Perm.refl l
    | some item =>
      obtain ⟨hlen, hitem⟩ := List.getElem?_eq_some_iff.mp hgi
      have hdecomp : l.take i ++ l[i] :: l.drop (i + 1) = l := by
        rw [← List.drop_eq_getElem_cons hlen, List.take_append_drop]
      have h2 : (item :: spliceRemove l i).Perm l := by
        unfold spliceRemove
        rw [← hitem]
        have hmid : (l.take i ++ l[i] :: l.drop (i + 1)).Perm
            (l[i] :: (l.take i ++ l.drop (i + 1))) := List.perm_middle
        rw [hdecomp] at hmid
        exact hmid.symm
      exact (spliceInsert_perm _ _ _).trans h2

/-! ## C2 — the Summary step gate -/

/-- C2: at step 1 (Summary), `next` is blocked exactly when the summary
field is the empty string, whatever the other fields and whatever the
validation-error map hold. -/
theorem step1_next_blocked_iff_summary_empty (f : Form)
    (errors : List (String × String)) :
    isNextDisabled 1 f errors = true ↔ f.summary = "" := by
  simp [isNextDisabled]

/-! ## C3 — the skills/hobbies duplicate check trims after comparing -/

/-- C3 fails on the code: `addSkill` compares the *untrimmed* input
against the stored entries but appends the *trimmed* input, so adding
`"java"` and then `" java"` to an empty list produces two entries that are
equal under case-insensitive comparison. -/
theorem addSkill_untrimmed_duplicate :
    (addSkill (addSkill initialForm "java") " java").skillsList = ["java", "java"] ∧
    ¬ (addSkill (addSkill initialForm "java") " java").skillsList.Pairwise
        (fun a b => jsToLower a ≠ jsToLower b) := by
  have h : (addSkill (addSkill initialForm "java") " java").skillsList =
      ["java", "java"] := by decide
  refine ⟨h, ?_⟩
  intro hp
  rw [h] at hp
  exact (List.pairwise_cons.mp hp).1 "java" (by simp) rfl

/-! ## C7 — import merges by key presence -/

/-- C7: import is a partial merge by key presence — each of the three
top-level keys absent from a parsed payload leaves the matching state
component unchanged, and a payload carrying only a section order replaces
the order while the form and visibility keep their prior values. -/
theorem import_partial_merge (s : AppState) (p : Payload) (ord : List String) :
    (p.form = none → (importJSONOp s (some p)).form = s.form) ∧
    (p.sectionOrder = none →
      (importJSONOp s (some p)).sectionOrder = s.sectionOrder) ∧
    (p.sectionVisibility = none →
      (importJSONOp s (some p)).sectionVisibility = s.sectionVisibility) ∧
    importJSONOp s (some ⟨none, some ord, none⟩) = { s with sectionOrder := ord } := by
  rcases p with ⟨pf, po, pv⟩
  refine ⟨?_, ?_, ?_, rfl⟩ <;> rintro rfl
  · rcases po with _ | o <;> rcases pv with _ | v <;> rfl
  · rcases pf with _ | f <;> rcases pv with _ | v <;> rfl
  · rcases pf with _ | f <;> rcases po with _ | o <;> rfl

/-! ## C8 — a malformed payload is absorbed -/

/-- C8: an import input that does not parse as valid JSON (the `none`
parse result, whose failure the source's `catch` swallows) leaves the
whole state — form, section order, section visibility — exactly as it
was, with no error surfaced. -/
theorem import_malformed_noop (s : AppState) : importJSONOp s none = s := rfl

/-! ## C9 — the toggle side table desynchronizes on a boundary move -/

/-- C9 fails on the code: `moveExperienceEntry(0, -1)` on a three-entry
list leaves the experience list unchanged (the form update is guarded) but
still reorders the suggestion-toggle array — its update has no bounds
guard, and JS `splice` resolves the insertion index `-1` relative to the
end of the array — so the flags end up attached to different entries. -/
theorem moveExperience_toggles_desync :
    (moveExperienceEntryOp threeExpState 0 (-1)).form.experienceList =
      threeExpState.form.experienceList ∧
    threeExpState.expSugToggles = [true, false, false] ∧
    (moveExperienceEntryOp threeExpState 0 (-1)).expSugToggles =
      [false, true, false] := by
  refine ⟨rfl, rfl, rfl⟩

/-! ## C10 — moves are no-ops at the boundaries -/

/-- C10: moving the first entry up or the last entry down is a no-op on
the list, for the generic splice-based move and for each of the five move
operations (education, experience, projects, certifications, section
order). -/
theorem move_boundary_noop {α : Type} (L : List α) (s : AppState) :
    moveEntry L 0 (-1) = L ∧
    moveEntry L (L.length - 1) 1 = L ∧
    (moveEducationEntryOp s 0 (-1)).form.educationList = s.form.educationList ∧
    (moveEducationEntryOp s (s.form.educationList.length - 1) 1).form.educationList =
      s.form.educationList ∧
    (moveExperienceEntryOp s 0 (-1)).form.experienceList = s.form.experienceList ∧
    (moveExperienceEntryOp s (s.form.experienceList.length - 1) 1).form.experienceList =
      s.form.experienceList ∧
    (moveProjectEntryOp s 0 (-1)).form.projectsList = s.form.projectsList ∧
    (moveProjectEntryOp s (s.form.projectsList.length - 1) 1).form.projectsList =
      s.form.projectsList ∧
    (moveCertificationEntryOp s 0 (-1)).form.certificationsList =
      s.form.certificationsList ∧
    (moveCertificationEntryOp s (s.form.certificationsList.length - 1) 1).form.certificationsList =
      s.form.certificationsList ∧
    (moveSectionOp s 0 (-1)).sectionOrder = s.sectionOrder ∧
    (moveSectionOp s (s.sectionOrder.length - 1) 1).sectionOrder = s.sectionOrder := by
  refine ⟨moveEntry_up_from_zero L, moveEntry_down_from_last L, ?_, ?_, ?_, ?_, ?_,
    ?_, ?_, ?_, ?_, ?_⟩ <;>
    simp [moveEducationEntryOp, moveExperienceEntryOp, moveProjectEntryOp,
      moveCertificationEntryOp, moveSectionOp, moveEntry_up_from_zero,
      moveEntry_down_from_last]

/-! ## Facts about trimming, splitting and deduplication -/

theorem trimChars_eq_nil (l : List Char) (h : trimChars l = []) :
    ∀ c ∈ l, isWs c = true := by
  unfold trimChars at h
  rw [List.reverse_eq_nil_iff, List.dropWhile_eq_nil_iff] at h
  intro c hc
  rw [← List.takeWhile_append_dropWhile (p := isWs) (l := l), List.mem_append] at hc
  rcases hc with hc | hc
  · exact List.mem_takeWhile_imp hc
  · exact h c (List.mem_reverse.mpr hc)

theorem jsTrim_eq_empty (s : String) (h : jsTrim s = "") :
    ∀ c ∈ s.data, isWs c = true := by
  have hl : trimChars s.data = [] := by
    have hd := congrArg String.data h
    simpa [jsTrim] using hd
  exact trimChars_eq_nil _ hl

theorem ws_char_norm (c : Char) (h : isWs c = true) :
    normChar c.toLower = c := by
  simp only [isWs, Bool.or_eq_true, decide_eq_true_eq] at h
  rcases h with ((h | h) | h) | h <;> subst h <;> decide

theorem splitWsAux_all_ws (l : List Char) (h : ∀ c ∈ l, isWs c = true) :
    ∀ p ∈ splitWsAux [] l, p = [] := by
  induction l with
  | nil => intro p hp; simpa [splitWsAux] using hp
  | cons c cs ih =>
    intro p hp
    have hc := h c (List.mem_cons_self _ _)
    simp only [splitWsAux, hc, if_true, List.reverse_nil, List.mem_cons] at hp
    rcases hp with rfl | hp
    · rfl
    · exact ih (fun x hx => h x (List.mem_cons_of_mem _ hx)) p hp

theorem jdTokens_of_ws (jd : String) (h : ∀ c ∈ jd.data, isWs c = true) :
    ∀ w ∈ jdTokens jd, w = "" := by
  intro w hw
  unfold jdTokens at hw
  rcases List.mem_map.mp hw with ⟨p, hp, rfl⟩
  have hall : ∀ c ∈ jd.data.map (fun c => normChar c.toLower), isWs c = true := by
    intro c hc
    rcases List.mem_map.mp hc with ⟨c0, hc0, rfl⟩
    have h0 := h c0 hc0
    rw [ws_char_norm c0 h0]
    exact h0
  have hempty := splitWsAux_all_ws _ hall p hp
  subst hempty
  rfl

theorem mem_dedupFirst (w : String) (l : List String) : ∀ seen : List String,
    (w ∈ dedupFirst seen l ↔ w ∈ l ∧ w ∉ seen) := by
  induction l with
  | nil => intro seen; simp [dedupFirst]
  | cons x xs ih =>
    intro seen
    by_cases hx : x ∈ seen
    · rw [dedupFirst, if_pos hx, ih]
      constructor
      · rintro ⟨h1, h2⟩
        exact ⟨List.mem_cons_of_mem _ h1, h2⟩
      · rintro ⟨h1, h2⟩
        rcases List.mem_cons.mp h1 with rfl | h1
        · exact absurd hx h2
        · exact ⟨h1, h2⟩
    · rw [dedupFirst, if_neg hx, List.mem_cons]
      constructor
      · rintro (rfl | hmem)
        · exact ⟨List.mem_cons_self _ _, hx⟩
        · rw [ih] at hmem
          obtain ⟨h1, h2⟩ := hmem
          simp only [List.mem_cons, not_or] at h2
          exact ⟨List.mem_cons_of_mem _ h1, h2.2⟩
      · rintro ⟨h1, h2⟩
        by_cases hwx : w = x
        · exact Or.inl hwx
        · right
          rw [ih]
          have h1x : w ∈ xs := by
            rcases List.mem_cons.mp h1 with hh | hh
            · exact absurd hh hwx
            · exact hh
          refine ⟨h1x, ?_⟩
          simp only [List.mem_cons, not_or]
          exact ⟨hwx, h2⟩

theorem string_contains_eq_mem (l : List String) (w : String) :
    (l.contains w = true) ↔ w ∈ l := List.elem_iff

/-! ## C4 — the keyword gap analyzer -/

/-- C4: a token of the lowercased, punctuation-normalized job description
is reported as a missing keyword exactly when its length exceeds 3, it is
not a stop word, and it does not occur as a substring of the lowercased
resume text; a blank job description yields the empty result with no
analysis. -/
theorem missingKeywords_characterization (jd : String) (f : Form) :
    (∀ w : String, w ∈ missingKeywords jd f ↔
      (w ∈ jdTokens jd ∧ 3 < w.length ∧ w ∉ stopWordsList ∧
        containsStr (resumeText f) w = false))
    ∧ (jsTrim jd = "" → missingKeywords jd f = []) := by
  have hguard : jsTrim jd = "" → missingKeywords jd f = [] := by
    intro h
    unfold missingKeywords
    rw [if_pos h]
  refine ⟨?_, hguard⟩
  intro w
  by_cases hg : jsTrim jd = ""
  · rw [hguard hg]
    simp only [List.not_mem_nil, false_iff]
    rintro ⟨hmem, hlen, -, -⟩
    have hw0 := jdTokens_of_ws jd (jsTrim_eq_empty jd hg) w hmem
    subst hw0
    simp at hlen
  · unfold missingKeywords
    rw [if_neg hg]
    simp only [List.mem_filter, mem_dedupFirst, List.not_mem_nil, not_false_iff,
      and_true, Bool.and_eq_true, decide_eq_true_eq, Bool.not_eq_true']
    constructor
    · rintro ⟨⟨hmem, hlen, hstop⟩, hcont⟩
      refine ⟨hmem, hlen, ?_, hcont⟩
      intro hmem2
      rw [← string_contains_eq_mem stopWordsList w, hstop] at hmem2
      exact Bool.false_ne_true hmem2
    · rintro ⟨hmem, hlen, hstop, hcont⟩
      refine ⟨⟨hmem, hlen, ?_⟩, hcont⟩
      cases hcb : stopWordsList.contains w with
      | false => rfl
      | true => exact absurd ((string_contains_eq_mem _ _).mp hcb) hstop

/-! ## C5 — the section order stays a permutation -/

theorem applyImport_sectionOrder (s : AppState) (p : Payload) :
    (applyImport s p).sectionOrder = p.sectionOrder.getD s.sectionOrder := by
  rcases p with ⟨pf, po, pv⟩
  rcases pf with _ | f <;> rcases po with _ | o <;> rcases pv with _ | v <;> rfl

/-- C5 fails as stated: `importJSON` applies whatever `sectionOrder` array
the parsed file carries, so importing a well-parsed payload whose order is
the one-element array `["education"]` yields a reachable state whose
section order is not a permutation of the seven identifiers. -/
theorem reachable_bad_sectionOrder :
    Reachable badOrderImport ∧ ¬ badOrderImport.sectionOrder.Perm sectionIds := by
  constructor
  · exact Reachable.importJ _ Reachable.init _
  · intro hperm
    have hlen := hperm.length_eq
    have hbad : badOrderImport.sectionOrder = ["education"] := rfl
    rw [hbad] at hlen
    simp [sectionIds] at hlen

/-- C5 (amended): in every state reachable through initialization,
`moveSection`, `resetAll`, and imports/restores whose payload order — when
the key is present — is itself a permutation of the seven identifiers, the
section order is a permutation of the seven fixed identifiers. -/
theorem reachableWF_sectionOrder_perm (s : AppState) (h : ReachableWF s) :
    s.sectionOrder.Perm sectionIds := by
  induction h with
  | init => exact List.Perm.refl _
  | move s hs i d ih => exact (moveEntry_perm _ _ _).trans ih
  | reset s hs ih => exact List.Perm.refl _
  | importJ s hs p hp ih =>
    cases p with
    | none => exact ih
    | some q =>
      have hso : (importJSONOp s (some q)).sectionOrder =
          q.sectionOrder.getD s.sectionOrder := applyImport_sectionOrder s q
      rw [hso]
      cases hq : q.sectionOrder with
      | none => simpa using ih
      | some ord => simpa using hp ord hq
  | restore s hs p hp ih =>
    cases p with
    | none => exact ih
    | some q =>
      have hso : (importJSONOp s (some q)).sectionOrder =
          q.sectionOrder.getD s.sectionOrder := applyImport_sectionOrder s q
      rw [hso]
      cases hq : q.sectionOrder with
      | none => simpa using ih
      | some ord => simpa using hp ord hq

theorem reachableWF_sectionOrder_perm_witness :
    (moveSectionOp initialState 0 1).sectionOrder.Perm sectionIds :=
  reachableWF_sectionOrder_perm _ (ReachableWF.move _ ReachableWF.init 0 1)

/-! ## C6 — the first/last-name validator -/

/-- C6 fails as stated at the one-space string: it is non-empty and every
one of its characters is in the allowed set (letters, whitespace,
apostrophe, hyphen), yet the validator reports it as required — as the
claim's own second clause demands for whitespace-only strings. -/
theorem validateField_name_counterexample :
    (" " : String) ≠ "" ∧ (∀ c ∈ (" " : String).data, isNameChar c = true) ∧
    validateField "firstName" " " = "This field is required" := by
  refine ⟨by decide, by decide, by decide⟩

/-- C6 (amended): for every string that is non-empty after trimming and
consists only of letters, whitespace, apostrophes and hyphens, the
first/last-name validator returns the empty message; for a blank (empty or
whitespace-only) string, and for any string containing a character outside
that set, it returns a non-empty message. -/
theorem validateField_name_amended (fld value : String)
    (hf : fld = "firstName" ∨ fld = "lastName") :
    ((jsTrim value ≠ "" ∧ ∀ c ∈ value.data, isNameChar c = true) →
        validateField fld value = "") ∧
    (jsTrim value = "" → validateField fld value ≠ "") ∧
    ((∃ c ∈ value.data, isNameChar c = false) → validateField fld value ≠ "") := by
  have hbranch : validateField fld value =
      (if jsTrim value = "" then "This field is required"
       else if value.data.any (fun c => !(isNameChar c)) = true then
         "Only letters are allowed"
       else "") := by
    unfold validateField
    rw [if_pos hf]
  rw [hbranch]
  refine ⟨?_, ?_, ?_⟩
  · rintro ⟨ht, hall⟩
    have hany : value.data.any (fun c => !(isNameChar c)) = false := by
      rw [List.any_eq_false]
      intro c hc
      simp [hall c hc]
    rw [if_neg ht, if_neg (by rw [hany]; exact Bool.false_ne_true)]
  · intro ht
    rw [if_pos ht]
    decide
  · rintro ⟨c, hc, hbad⟩
    by_cases ht : jsTrim value = ""
    · rw [if_pos ht]; decide
    · have hany : value.data.any (fun c => !(isNameChar c)) = true := by
        rw [List.any_eq_true]
        exact ⟨c, hc, by simp [hbad]⟩
      rw [if_neg ht, if_pos hany]
      decide

theorem validateField_name_witness :
    validateField "firstName" "Anne" = "" ∧ validateField "lastName" " " ≠ "" :=
  ⟨(validateField_name_amended "firstName" "Anne" (Or.inl rfl)).1
      ⟨by decide, by decide⟩,
   (validateField_name_amended "lastName" " " (Or.inr rfl)).2.1 (by decide)⟩

/-! ## C1 — serialization round-trips and is lossless -/

theorem json_str_injective : Function.Injective Json.str := by
  intro a b h
  rw [Json.str.injEq] at h
  exact h

theorem encodeEducation_injective : Function.Injective encodeEducation := by
  intro a b h
  cases a; cases b
  simpa [encodeEducation] using h

theorem encodeExperience_injective : Function.Injective encodeExperience := by
  intro a b h
  cases a; cases b
  simpa [encodeExperience] using h

theorem encodeLanguage_injective : Function.Injective encodeLanguage := by
  intro a b h
  cases a; cases b
  simpa [encodeLanguage] using h

theorem encodeProject_injective : Function.Injective encodeProject := by
  intro a b h
  cases a; cases b
  simpa [encodeProject] using h

theorem encodeCertification_injective : Function.Injective encodeCertification := by
  intro a b h
  cases a; cases b
  simpa [encodeCertification] using h

theorem encodeVisPair_injective :
    Function.Injective (fun kv : String × Bool => (kv.1, Json.bool kv.2)) := by
  rintro ⟨k1, v1⟩ ⟨k2, v2⟩ h
  simpa using h

theorem encodeForm_injective : Function.Injective encodeForm := by
  intro f g h
  obtain ⟨a1, a2, a3, a4, a5, a6, a7, a8, a9, a10, a11, a12, a13, a14, a15, a16,
    a17, a18, a19, a20⟩ := f
  obtain ⟨b1, b2, b3, b4, b5, b6, b7, b8, b9, b10, b11, b12, b13, b14, b15, b16,
    b17, b18, b19, b20⟩ := g
  cases a20 <;> cases b20 <;>
    simp only [encodeForm, Json.obj.injEq, List.cons.injEq, Prod.mk.injEq,
      Json.str.injEq, Json.arr.injEq, and_true, true_and] at h
  · obtain ⟨h1, h2, h3, h4, h5, h6, h7, h8, h9, h10, h11, h12, h13, h14, h15,
      h16, h17, h18, h19⟩ := h
    have e8 := List.map_injective_iff.mpr encodeEducation_injective h8
    have e9 := List.map_injective_iff.mpr encodeExperience_injective h9
    have e10 := List.map_injective_iff.mpr json_str_injective h10
    have e11 := List.map_injective_iff.mpr encodeLanguage_injective h11
    have e12 := List.map_injective_iff.mpr json_str_injective h12
    have e13 := List.map_injective_iff.mpr encodeProject_injective h13
    have e14 := List.map_injective_iff.mpr encodeCertification_injective h14
    subst h1 h2 h3 h4 h5 h6 h7 e8 e9 e10 e11 e12 e13 e14 h15 h16 h17 h18 h19
    rfl
  · obtain ⟨-, -, -, -, -, -, -, -, -, -, -, -, -, -, -, -, -, -, -, h20⟩ := h
    exact Json.noConfusion h20
  · obtain ⟨-, -, -, -, -, -, -, -, -, -, -, -, -, -, -, -, -, -, -, h20⟩ := h
    exact Json.noConfusion h20
  · obtain ⟨h1, h2, h3, h4, h5, h6, h7, h8, h9, h10, h11, h12, h13, h14, h15,
      h16, h17, h18, h19, h20⟩ := h
    have e8 := List.map_injective_iff.mpr encodeEducation_injective h8
    have e9 := List.map_injective_iff.mpr encodeExperience_injective h9
    have e10 := List.map_injective_iff.mpr json_str_injective h10
    have e11 := List.map_injective_iff.mpr encodeLanguage_injective h11
    have e12 := List.map_injective_iff.mpr json_str_injective h12
    have e13 := List.map_injective_iff.mpr encodeProject_injective h13
    have e14 := List.map_injective_iff.mpr encodeCertification_injective h14
    subst h1 h2 h3 h4 h5 h6 h7 e8 e9 e10 e11 e12 e13 e14 h15 h16 h17 h18 h19 h20
    rfl

/-- C1: serializing the full authoring state and applying the import of
the result restores exactly the same form, section order and section
visibility; and the serialized JSON shape is lossless — the encoding of
the (form, order, visibility) triple is injective, so the document is
fully reconstructable from its serialized form. -/
theorem export_import_roundtrip (s : AppState) (f g : Form)
    (o o2 : List String) (v v2 : List (String × Bool))
    (h : encodeSaved f o v = encodeSaved g o2 v2) :
    importJSONOp s (some (exportJSON s)) = s ∧ f = g ∧ o = o2 ∧ v = v2 := by
  have hr : importJSONOp s (some (exportJSON s)) = s := rfl
  simp only [encodeSaved, Json.obj.injEq, List.cons.injEq, Prod.mk.injEq,
    Json.arr.injEq, and_true, true_and] at h
  obtain ⟨hf, ho, hv⟩ := h
  exact ⟨hr, encodeForm_injective hf,
    List.map_injective_iff.mpr json_str_injective ho,
    List.map_injective_iff.mpr encodeVisPair_injective hv⟩

theorem export_import_roundtrip_witness :
    importJSONOp initialState (some (exportJSON initialState)) = initialState ∧
    initialForm = initialForm ∧ sectionIds = sectionIds ∧
    initialVisibility = initialVisibility :=
  export_import_roundtrip initialState initialForm initialForm sectionIds
    sectionIds initialVisibility initialVisibility rfl

end CvBuilder
